import Mathlib

/-!
Shallow embedding of `src/Eigen/src/Core/Product.h` (Eigen 2 dense matrix
product core): the product-mode classifier, the `Product` expression node,
the lazy scalar coefficient evaluators, the cache-friendly kernel selector,
and the compound-assignment entry points.

Matrices are modelled as runtime dimensions together with a total
coefficient function; scalars are either a fully generic type carrying only
`Mul`/`Add` (so that theorems about accumulation order are genuinely about
the syntactic order of operations) or `Int` where exact dot-product values
are stated.  Failed `ei_assert` assertions are modelled by `Option`
(`none` = assertion failure aborts the computation).
-/

namespace Eigen

/-- A dense matrix operand view: runtime shape plus a (total) coefficient
function.  Out-of-range coefficients are unspecified garbage, exactly like
reading past the end of an Eigen expression; theorems only constrain
in-range entries. -/
structure Mat (α : Type) where
  rows : Nat
  cols : Nat
  coeff : Nat → Nat → α

/-- The two product evaluation strategies (`NormalProduct` /
`CacheFriendlyProduct` constants of the library). -/
inductive ProductMode
  | NormalProduct
  | CacheFriendlyProduct
deriving DecidableEq

/-- The `Product<LhsNested,RhsNested,ProductMode>` expression node: it holds
the two nested operands (`m_lhs`, `m_rhs`) and its mode tag. -/
structure Product (α : Type) where
  lhs : Mat α
  rhs : Mat α
  mode : ProductMode

/-- `Product::rows() { return m_lhs.rows(); }` -/
def Product.rows {α : Type} (p : Product α) : Nat := p.lhs.rows

/-- `Product::cols() { return m_rhs.cols(); }` -/
def Product.cols {α : Type} (p : Product α) : Nat := p.rhs.cols

/-!  ### Scalar coefficient evaluators (NoVectorization path)

`ei_product_coeff_impl<NoVectorization, Index, ...>::run` unrolls the dot
product of row `row` of `lhs` with column `col` of `rhs`:
the `Index = 0` specialization writes `res = lhs(row,0)*rhs(0,col)`, the
generic `Index` specialization first recurses at `Index-1` and then does
`res += lhs(row,Index)*rhs(Index,col)`; the `Index = -1` specialization is
an intentional no-op keeping `res` untouched. -/

/-- The unrolled recursion of `ei_product_coeff_impl<NoVectorization, n, ...>`
for a non-negative unrolling index `n` (the value written into `res`). -/
def unrolledCoeffRun {α : Type} [Mul α] [Add α]
    (lhs rhs : Mat α) (row col : Nat) : Nat → α
  | 0 => lhs.coeff row 0 * rhs.coeff 0 col
  | n + 1 =>
      unrolledCoeffRun lhs rhs row col n + lhs.coeff row (n + 1) * rhs.coeff (n + 1) col

/-- `ei_product_coeff_impl<NoVectorization, Index, Lhs, Rhs, RetScalar>::run`
as a `res`-transformer over the template parameter `Index : Int`: indices
`≥ 0` overwrite `res` with the unrolled dot product, the `-1`
specialization (reached when the compile-time inner size is 0) leaves
`res` unmodified. -/
def scalarCoeffImplRun {α : Type} [Mul α] [Add α]
    (index : Int) (lhs rhs : Mat α) (row col : Nat) (res : α) : α :=
  if 0 ≤ index then unrolledCoeffRun lhs rhs row col index.toNat else res

/-- `ei_product_coeff_impl<NoVectorization, Dynamic, Lhs, Rhs, RetScalar>::run`:
asserts `lhs.cols() > 0`, initializes `res = lhs(row,0)*rhs(0,col)`, then
runs the loop `for(int i = 1; i < lhs.cols(); ++i) res += lhs(row,i)*rhs(i,col)`.
`none` models the failed assertion. -/
def dynamicCoeffRun {α : Type} [Mul α] [Add α]
    (lhs rhs : Mat α) (row col : Nat) : Option α :=
  if 0 < lhs.cols then
    some ((List.range' 1 (lhs.cols - 1)).foldl
      (fun res i => res + lhs.coeff row i * rhs.coeff i col)
      (lhs.coeff row 0 * rhs.coeff 0 col))
  else
    none

/-- `Product::coeff(row, col)`: declares an uninitialized `Scalar res`
(modelled by the explicit `init` argument) and runs `ScalarCoeffImpl`,
which is `ei_product_coeff_impl` instantiated at
`Index = Unroll ? InnerSize-1 : Dynamic` (scalar `NoVectorization` path,
`CanVectorizeInner = false`).  `innerSize` is the compile-time
`InnerSize = min(Lhs::ColsAtCompileTime, Rhs::RowsAtCompileTime)`. -/
def Product.coeff {α : Type} [Mul α] [Add α]
    (unroll : Bool) (innerSize : Int) (init : α) (p : Product α)
    (row col : Nat) : Option α :=
  if unroll then
    some (scalarCoeffImplRun (innerSize - 1) p.lhs p.rhs row col init)
  else
    dynamicCoeffRun p.lhs p.rhs row col

/-!  ### Product-mode classifier -/

/-- The library's `Dynamic` size marker (a distinguished integer constant
declared in the core constants header, outside `src/`); only its
distinctness from actual compile-time sizes such as `1` matters here. -/
def Dynamic : Int := 10000

/-- The static traits of an operand expression that `ei_product_mode`
inspects: compile-time shape, compile-time max shape, the `RowMajorBit`
and `DirectAccessBit` flags, and the identity of the scalar type
(`ei_is_same_type` on scalars is equality of `scalarType`). -/
structure XprTraits where
  rowsAtCompileTime : Int
  colsAtCompileTime : Int
  maxRowsAtCompileTime : Int
  maxColsAtCompileTime : Int
  rowMajorBit : Bool
  directAccessBit : Bool
  scalarType : Nat
deriving DecidableEq

/-- Modelled from the spec: `IsVectorAtCompileTime` of `MatrixBase`
(defined outside `src/`) — an operand is a compile-time vector when one of
its compile-time dimensions equals 1. -/
def XprTraits.isVectorAtCompileTime (t : XprTraits) : Bool :=
  t.rowsAtCompileTime == 1 || t.colsAtCompileTime == 1

/-- `ei_product_mode<Lhs,Rhs>::value`: selects `CacheFriendlyProduct` or
`NormalProduct` from the static traits.  Note that the code's local
`LhsIsVectorAtCompileTime` enum ("workaround sun studio") is written as
`Lhs::ColsAtCompileTime==1 || Rhs::ColsAtCompileTime==1`, not as
`Lhs::IsVectorAtCompileTime`. -/
def ei_product_mode (l r : XprTraits) : ProductMode :=
  let lhsIsVectorAtCompileTime :=
    l.colsAtCompileTime == 1 || r.colsAtCompileTime == 1
  if (l.maxColsAtCompileTime == Dynamic
      && (l.maxRowsAtCompileTime == Dynamic || r.maxColsAtCompileTime == Dynamic)
      && !(r.isVectorAtCompileTime && l.rowMajorBit && !l.directAccessBit)
      && !(lhsIsVectorAtCompileTime && !r.rowMajorBit && !r.directAccessBit)
      && (l.scalarType == r.scalarType)) then
    ProductMode.CacheFriendlyProduct
  else
    ProductMode.NormalProduct

/-- The §4.1 classifier as claim C2 states it: identical to
`ei_product_mode` except that the fourth clause tests "A is a vector"
(`Lhs::IsVectorAtCompileTime`), which is what the code's
`LhsIsVectorAtCompileTime` name announces. -/
def ei_product_mode_claim (l r : XprTraits) : ProductMode :=
  if (l.maxColsAtCompileTime == Dynamic
      && (l.maxRowsAtCompileTime == Dynamic || r.maxColsAtCompileTime == Dynamic)
      && !(r.isVectorAtCompileTime && l.rowMajorBit && !l.directAccessBit)
      && !(l.isVectorAtCompileTime && !r.rowMajorBit && !r.directAccessBit)
      && (l.scalarType == r.scalarType)) then
    ProductMode.CacheFriendlyProduct
  else
    ProductMode.NormalProduct

/-!  ### Cache-friendly kernel selector

`ei_cache_friendly_product_selector` dispatches on the static tag tuple
`(LhsRows, LhsOrder, LhsAccess, RhsCols, RhsOrder, RhsAccess)` through C++
partial template specialization: the primary template is the general GEMM
path (`_cacheFriendlyEvalAndAdd`); the partial specializations constrain
either `(LhsOrder, LhsAccess, RhsCols = 1)` or
`(LhsRows = 1, RhsOrder, RhsAccess)`.  Two of the specializations are
intentionally left without a `run` member ("discard this case ... to be
sure to hit a compilation error"), and a tuple matched by specializations
from both families is ambiguous; both situations are compile-time
errors. -/

/-- `RowMajor` / `ColMajor` storage order constants. -/
inductive StorageOrder
  | RowMajor
  | ColMajor
deriving DecidableEq

/-- `HasDirectAccess` / `NoDirectAccess` constants
(`ei_blas_traits<...>::ActualAccess`). -/
inductive DirectAccess
  | NoDirectAccess
  | HasDirectAccess
deriving DecidableEq

/-- The static tag tuple indexing `ei_cache_friendly_product_selector`. -/
structure SelectorTags where
  lhsRows : Int
  lhsOrder : StorageOrder
  lhsAccess : DirectAccess
  rhsCols : Int
  rhsOrder : StorageOrder
  rhsAccess : DirectAccess
deriving DecidableEq

/-- The distinct kernels implemented by the selector specializations. -/
inductive CFKernel
  | generalGemm              -- primary template: `_cacheFriendlyEvalAndAdd`
  | colmajorTimesVectorExpr  -- `<LhsRows, ColMajor, NoDirectAccess, 1, _, _>`
  | colmajorTimesVectorDirect -- `<LhsRows, ColMajor, HasDirectAccess, 1, _, _>`
  | rowmajorTimesVector      -- `<LhsRows, RowMajor, HasDirectAccess, 1, _, _>`
  | vectorTimesRowmajorExpr  -- `<1, _, _, RhsCols, RowMajor, NoDirectAccess>`
  | vectorTimesRowmajorDirect -- `<1, _, _, RhsCols, RowMajor, HasDirectAccess>`
  | vectorTimesColmajor      -- `<1, _, _, RhsCols, ColMajor, HasDirectAccess>`
deriving DecidableEq

/-- Outcome of C++ partial-specialization matching on a tag tuple. -/
inductive SelectorResolution
  | kernel (k : CFKernel)
  | emptySpecialization      -- matched a deliberately body-less specialization
  | ambiguous                -- matched specializations from both families
deriving DecidableEq

/-- The family of specializations constraining `RhsCols = 1` (the
matrix-times-vector side), in the order they appear in the file. -/
def matchRhsColsOne (t : SelectorTags) : Option SelectorResolution :=
  if t.rhsCols == 1 then
    some (match t.lhsOrder, t.lhsAccess with
      | StorageOrder.ColMajor, DirectAccess.NoDirectAccess =>
          SelectorResolution.kernel CFKernel.colmajorTimesVectorExpr
      | StorageOrder.ColMajor, DirectAccess.HasDirectAccess =>
          SelectorResolution.kernel CFKernel.colmajorTimesVectorDirect
      | StorageOrder.RowMajor, DirectAccess.HasDirectAccess =>
          SelectorResolution.kernel CFKernel.rowmajorTimesVector
      | StorageOrder.RowMajor, DirectAccess.NoDirectAccess =>
          SelectorResolution.emptySpecialization)
  else none

/-- The family of specializations constraining `LhsRows = 1` (the
vector-times-matrix side). -/
def matchLhsRowsOne (t : SelectorTags) : Option SelectorResolution :=
  if t.lhsRows == 1 then
    some (match t.rhsOrder, t.rhsAccess with
      | StorageOrder.RowMajor, DirectAccess.NoDirectAccess =>
          SelectorResolution.kernel CFKernel.vectorTimesRowmajorExpr
      | StorageOrder.RowMajor, DirectAccess.HasDirectAccess =>
          SelectorResolution.kernel CFKernel.vectorTimesRowmajorDirect
      | StorageOrder.ColMajor, DirectAccess.HasDirectAccess =>
          SelectorResolution.kernel CFKernel.vectorTimesColmajor
      | StorageOrder.ColMajor, DirectAccess.NoDirectAccess =>
          SelectorResolution.emptySpecialization)
  else none

/-- `ei_cache_friendly_product_selector` dispatch: a unique matching
partial specialization wins; no match falls back to the primary template
(general GEMM); matches in both families are ambiguous (the families
constrain disjoint template parameters, so neither is more specialized). -/
def ei_cache_friendly_product_selector (t : SelectorTags) : SelectorResolution :=
  match matchRhsColsOne t, matchLhsRowsOne t with
  | some a, none => a
  | none, some b => b
  | some _, some _ => SelectorResolution.ambiguous
  | none, none => SelectorResolution.kernel CFKernel.generalGemm

/-!  ### Runtime cache-friendly threshold -/

/-- `Product::_useCacheFriendlyProduct()`:
`m_lhs.cols() >= EIGEN_CACHEFRIENDLY_PRODUCT_THRESHOLD && (rows() >= ... || cols() >= ...)`.
The threshold macro is tunable and defined outside `src/` (the spec gives
default ≈ 8), so it is a parameter here. -/
def Product.useCacheFriendlyProduct {α : Type} (threshold : Nat) (p : Product α) : Bool :=
  decide (threshold ≤ p.lhs.cols)
    && (decide (threshold ≤ p.rows) || decide (threshold ≤ p.cols))

/-!  ### Cache-friendly kernels and compound assignment

The destination `res` is a `Mat Int`; kernels acting on vector-shaped
destinations only touch column 0 (resp. row 0), exactly like the C++
vector compound assignments. -/

/-- The `<LhsRows, ColMajor, NoDirectAccess, 1, RhsOrder, RhsAccess>`
specialization: `ei_assert(alpha == Scalar(1))`, then
`for (k = 0; k < product.rhs().rows(); ++k) res += product.rhs().coeff(k) * product.lhs().col(k)`.
`none` models the failed assertion. -/
def colmajorTimesVectorExprRun (p : Product Int) (alpha : Int) (res : Mat Int) :
    Option (Mat Int) :=
  if alpha = 1 then
    some ((List.range p.rhs.rows).foldl
      (fun acc k =>
        { acc with coeff := fun i j =>
            if j = 0 then acc.coeff i 0 + p.rhs.coeff k 0 * p.lhs.coeff i k
            else acc.coeff i j })
      res)
  else none

/-- The `<1, LhsOrder, LhsAccess, RhsCols, RowMajor, NoDirectAccess>`
specialization: `ei_assert(alpha == Scalar(1))`, then
`for (j = 0; j < product.lhs().cols(); ++j) res += product.lhs().coeff(j) * product.rhs().row(j)`.
`none` models the failed assertion. -/
def vectorTimesRowmajorExprRun (p : Product Int) (alpha : Int) (res : Mat Int) :
    Option (Mat Int) :=
  if alpha = 1 then
    some ((List.range p.lhs.cols).foldl
      (fun acc j =>
        { acc with coeff := fun i c =>
            if i = 0 then acc.coeff 0 c + p.lhs.coeff 0 j * p.rhs.coeff j c
            else acc.coeff i c })
      res)
  else none

/-- Modelled from the spec: `ei_general_matrix_matrix_product::run` (§4.6),
whose body lives outside `src/`, computes `res += alpha * lhs * rhs` (here
over exact integer arithmetic).  The operands reaching it are plain nested
matrices, so the §4.8 extraction yields the operands themselves with unit
absorbed factors and `actualAlpha = alpha`. -/
def ei_general_matrix_matrix_product (alpha : Int) (lhs rhs res : Mat Int) : Mat Int :=
  { res with coeff := fun i j =>
      res.coeff i j + alpha * ∑ k ∈ Finset.range lhs.cols, lhs.coeff i k * rhs.coeff k j }

/-- `Product::_cacheFriendlyEvalAndAdd(res, alpha)` extracts the plain
operands and calls the general GEMM kernel. -/
def cacheFriendlyEvalAndAdd (p : Product Int) (alpha : Int) (res : Mat Int) : Mat Int :=
  ei_general_matrix_matrix_product alpha p.lhs p.rhs res

/-- Modelled from the spec: the direct-access matrix-times-vector
specializations wrap `ei_cache_friendly_product_colmajor_times_vector` /
`..._rowmajor_times_vector` (§4.7), whose bodies live outside `src/`; both
compute `y += actualAlpha * A * x` on the vector destination (column 0 of
`res`). -/
def matTimesVectorDirectRun (p : Product Int) (alpha : Int) (res : Mat Int) : Mat Int :=
  { res with coeff := fun i j =>
      if j = 0 then
        res.coeff i 0 + alpha * ∑ k ∈ Finset.range p.lhs.cols, p.lhs.coeff i k * p.rhs.coeff k 0
      else res.coeff i j }

/-- Modelled from the spec: the direct-access vector-times-matrix
specializations call the §4.7 kernels on the transposed matrix, computing
`res += actualAlpha * x^T * B` on the row-vector destination (row 0 of
`res`). -/
def vectorTimesMatDirectRun (p : Product Int) (alpha : Int) (res : Mat Int) : Mat Int :=
  { res with coeff := fun i j =>
      if i = 0 then
        res.coeff 0 j + alpha * ∑ k ∈ Finset.range p.lhs.cols, p.lhs.coeff 0 k * p.rhs.coeff k j
      else res.coeff i j }

/-- `ei_cache_friendly_product_selector<...>::run(res, product, alpha)`:
runtime semantics of the kernel chosen from the static tag tuple.  The
intentionally empty specializations and an ambiguous match have no `run`
at all (a compile-time error), modelled by `none`. -/
def selectorRun (t : SelectorTags) (p : Product Int) (alpha : Int) (res : Mat Int) :
    Option (Mat Int) :=
  match ei_cache_friendly_product_selector t with
  | SelectorResolution.kernel CFKernel.generalGemm =>
      some (cacheFriendlyEvalAndAdd p alpha res)
  | SelectorResolution.kernel CFKernel.colmajorTimesVectorExpr =>
      colmajorTimesVectorExprRun p alpha res
  | SelectorResolution.kernel CFKernel.colmajorTimesVectorDirect =>
      some (matTimesVectorDirectRun p alpha res)
  | SelectorResolution.kernel CFKernel.rowmajorTimesVector =>
      some (matTimesVectorDirectRun p alpha res)
  | SelectorResolution.kernel CFKernel.vectorTimesRowmajorExpr =>
      vectorTimesRowmajorExprRun p alpha res
  | SelectorResolution.kernel CFKernel.vectorTimesRowmajorDirect =>
      some (vectorTimesMatDirectRun p alpha res)
  | SelectorResolution.kernel CFKernel.vectorTimesColmajor =>
      some (vectorTimesMatDirectRun p alpha res)
  | SelectorResolution.emptySpecialization => none
  | SelectorResolution.ambiguous => none

/-- The value produced by the dynamic scalar coefficient evaluator when its
assertion passes (the `some` payload of `dynamicCoeffRun`). -/
def lazyCoeffValue (p : Product Int) (row col : Nat) : Int :=
  (List.range' 1 (p.lhs.cols - 1)).foldl
    (fun res i => res + p.lhs.coeff row i * p.rhs.coeff i col)
    (p.lhs.coeff row 0 * p.rhs.coeff 0 col)

/-- `lazyAssign(derived() + other._expression())`: every in-range
destination coefficient of a nonempty destination is evaluated through the
dynamic scalar path (a cache-friendly product has `InnerSize = Dynamic`,
hence `Unroll = false`), whose assertion fails when `lhs.cols() == 0`; an
empty destination evaluates no coefficient. -/
def lazyPlusAssign (res : Mat Int) (p : Product Int) : Option (Mat Int) :=
  if res.rows = 0 ∨ res.cols = 0 then some res
  else if 0 < p.lhs.cols then
    some { res with coeff := fun i j => res.coeff i j + lazyCoeffValue p i j }
  else none

/-- `lazyAssign(derived() - other._expression())`, the lazy branch of
`operator-=`. -/
def lazyMinusAssign (res : Mat Int) (p : Product Int) : Option (Mat Int) :=
  if res.rows = 0 ∨ res.cols = 0 then some res
  else if 0 < p.lhs.cols then
    some { res with coeff := fun i j => res.coeff i j - lazyCoeffValue p i j }
  else none

/-- `MatrixBase::operator+=` on a cache-friendly product: if
`_useCacheFriendlyProduct()` holds, run the selector with `alpha = 1`,
otherwise `lazyAssign(derived() + other._expression())`. -/
def operatorPlusEq (threshold : Nat) (t : SelectorTags) (res : Mat Int)
    (p : Product Int) : Option (Mat Int) :=
  if p.useCacheFriendlyProduct threshold then selectorRun t p 1 res
  else lazyPlusAssign res p

/-- `MatrixBase::operator-=` on a cache-friendly product: if
`_useCacheFriendlyProduct()` holds, run the selector with `alpha = -1`,
otherwise `lazyAssign(derived() - other._expression())`. -/
def operatorMinusEq (threshold : Nat) (t : SelectorTags) (res : Mat Int)
    (p : Product Int) : Option (Mat Int) :=
  if p.useCacheFriendlyProduct threshold then selectorRun t p (-1) res
  else lazyMinusAssign res p

/-!  ### Helper lemmas -/

/-- The runtime loop of the dynamic scalar evaluator computes exactly the
unrolled left-to-right accumulation. -/
theorem foldl_range'_eq_unrolledCoeffRun {α : Type} [Mul α] [Add α]
    (lhs rhs : Mat α) (r c : Nat) :
    ∀ n : Nat,
      (List.range' 1 n).foldl (fun res i => res + lhs.coeff r i * rhs.coeff i c)
        (lhs.coeff r 0 * rhs.coeff 0 c) = unrolledCoeffRun lhs rhs r c n := by
  intro n
  induction n with
  | zero => rfl
  | succ n ih =>
      rw [List.range'_concat, List.foldl_append, ih]
      simp [unrolledCoeffRun, Nat.add_comm]

/-- For a positive runtime inner size the dynamic evaluator succeeds with
the unrolled accumulation value. -/
theorem dynamicCoeffRun_pos {α : Type} [Mul α] [Add α]
    (lhs rhs : Mat α) (r c : Nat) (h : 0 < lhs.cols) :
    dynamicCoeffRun lhs rhs r c
      = some (unrolledCoeffRun lhs rhs r c (lhs.cols - 1)) := by
  rw [dynamicCoeffRun, if_pos h, foldl_range'_eq_unrolledCoeffRun]

/-- Over `Int` the left-to-right accumulation is the dot-product sum. -/
theorem unrolledCoeffRun_eq_sum (lhs rhs : Mat Int) (r c : Nat) (n : Nat) :
    unrolledCoeffRun lhs rhs r c n
      = ∑ i ∈ Finset.range (n + 1), lhs.coeff r i * rhs.coeff i c := by
  induction n with
  | zero => simp [unrolledCoeffRun]
  | succ n ih => rw [unrolledCoeffRun, ih, Finset.sum_range_succ _ (n + 1)]

/-- Folding column-0 updates over `List.range n` adds the sum of the
increments to column 0 and leaves every other entry (and the shape)
unchanged. -/
theorem foldl_colUpdate (g : Nat → Nat → Int) (res : Mat Int) (n : Nat) :
    (List.range n).foldl
        (fun acc k =>
          { acc with coeff := fun i j =>
              if j = 0 then acc.coeff i 0 + g k i else acc.coeff i j })
        res
      = { res with coeff := fun i j =>
            if j = 0 then res.coeff i 0 + ∑ k ∈ Finset.range n, g k i
            else res.coeff i j } := by
  induction n with
  | zero =>
      cases res with
      | mk rows cols coeff =>
          simp only [List.range_zero, List.foldl_nil, Finset.range_zero,
            Finset.sum_empty, Int.add_zero]
          congr 1
          funext i j
          by_cases hj : j = 0
          · subst hj; simp
          · simp [hj]
  | succ n ih =>
      rw [List.range_succ, List.foldl_append, ih]
      simp only [List.foldl_cons, List.foldl_nil]
      congr 1
      funext i j
      by_cases hj : j = 0
      · subst hj; simp [Finset.sum_range_succ, Int.add_assoc]
      · simp [hj]

/-- Folding row-0 updates over `List.range n` adds the sum of the
increments to row 0 and leaves every other entry (and the shape)
unchanged. -/
theorem foldl_rowUpdate (g : Nat → Nat → Int) (res : Mat Int) (n : Nat) :
    (List.range n).foldl
        (fun acc k =>
          { acc with coeff := fun i j =>
              if i = 0 then acc.coeff 0 j + g k j else acc.coeff i j })
        res
      = { res with coeff := fun i j =>
            if i = 0 then res.coeff 0 j + ∑ k ∈ Finset.range n, g k j
            else res.coeff i j } := by
  induction n with
  | zero =>
      cases res with
      | mk rows cols coeff =>
          simp only [List.range_zero, List.foldl_nil, Finset.range_zero,
            Finset.sum_empty, Int.add_zero]
          congr 1
          funext i j
          by_cases hi : i = 0
          · subst hi; simp
          · simp [hi]
  | succ n ih =>
      rw [List.range_succ, List.foldl_append, ih]
      simp only [List.foldl_cons, List.foldl_nil]
      congr 1
      funext i j
      by_cases hi : i = 0
      · subst hi; simp [Finset.sum_range_succ, Int.add_assoc]
      · simp [hi]

/-- For a positive runtime inner size, the coefficient the lazy plus/minus
assignments read off the product is the dot-product sum. -/
theorem lazyCoeffValue_eq_sum (p : Product Int) (i j : Nat) (hk : 0 < p.lhs.cols) :
    lazyCoeffValue p i j
      = ∑ k ∈ Finset.range p.lhs.cols, p.lhs.coeff i k * p.rhs.coeff k j := by
  rw [lazyCoeffValue, foldl_range'_eq_unrolledCoeffRun, unrolledCoeffRun_eq_sum,
    Nat.sub_add_cancel hk]

/-!  ### Claim theorems -/

/-- C1: for an m-by-k times k-by-n product with k > 0 and valid indices,
the lazy `Product::coeff(r,c)` — on both the dynamic-loop path and the
fully unrolled path instantiated at the inner size — returns the dot
product `Σ_{i=0..k-1} A(r,i)·B(i,c)`, and that value is the left-to-right
accumulation starting from `A(r,0)·B(0,c)` and adding `A(r,i)·B(i,c)` for
`i = 1..k-1`. -/
theorem C1_product_coeff_is_dot (p : Product Int) (k r c : Nat) (init : Int)
    (hcols : p.lhs.cols = k) (hk : 0 < k) :
    Product.coeff false 0 init p r c
        = some (∑ i ∈ Finset.range k, p.lhs.coeff r i * p.rhs.coeff i c)
      ∧ Product.coeff true (k : Int) init p r c
        = some (∑ i ∈ Finset.range k, p.lhs.coeff r i * p.rhs.coeff i c)
      ∧ (∑ i ∈ Finset.range k, p.lhs.coeff r i * p.rhs.coeff i c)
        = (List.range' 1 (k - 1)).foldl
            (fun res i => res + p.lhs.coeff r i * p.rhs.coeff i c)
            (p.lhs.coeff r 0 * p.rhs.coeff 0 c) := by
  obtain ⟨m, rfl⟩ : ∃ m, k = m + 1 := ⟨k - 1, (Nat.succ_pred_eq_of_pos hk).symm⟩
  have hpos : 0 < p.lhs.cols := by omega
  have hun : unrolledCoeffRun p.lhs p.rhs r c m
      = ∑ i ∈ Finset.range (m + 1), p.lhs.coeff r i * p.rhs.coeff i c :=
    unrolledCoeffRun_eq_sum p.lhs p.rhs r c m
  have hidx : ((m + 1 : Nat) : Int) - 1 = ((m : Nat) : Int) := by push_cast; ring
  refine ⟨?_, ?_, ?_⟩
  · rw [Product.coeff]
    simp only [Bool.false_eq_true, if_false]
    rw [dynamicCoeffRun_pos p.lhs p.rhs r c hpos, hcols]
    simp [hun]
  · rw [Product.coeff]
    simp only [if_true]
    rw [scalarCoeffImplRun, hidx, if_pos (Int.natCast_nonneg m), Int.toNat_natCast, hun]
  · rw [foldl_range'_eq_unrolledCoeffRun]
    simp [hun]

/-- C1 witness: scenario E1, `A = [[1,2],[3,4]]`, `B = [[5,6],[7,8]]`,
entry (0,0) of `A*B` is 19. -/
theorem C1_product_coeff_is_dot_witness :
    Product.coeff false 0 (0 : Int)
        ⟨⟨2, 2, fun i j => if i = 0 then (if j = 0 then 1 else 2)
                           else (if j = 0 then 3 else 4)⟩,
         ⟨2, 2, fun i j => if i = 0 then (if j = 0 then 5 else 6)
                           else (if j = 0 then 7 else 8)⟩,
         ProductMode.NormalProduct⟩ 0 0
      = some 19 :=
  ((C1_product_coeff_is_dot _ 2 0 0 0 rfl (by decide)).1).trans (by decide)

/-- C6: on the dynamic-inner-size lazy coefficient path, a runtime inner
size of 0 fails the `lhs.cols() > 0` assertion; for positive inner size
the assertion passes and the loop `k = 1..cols-1` accumulates onto the
initial term `A(r,0)·B(0,c)`. -/
theorem C6_dynamic_inner_size_zero_assertion (lhs rhs : Mat Int) (r c : Nat) :
    (dynamicCoeffRun lhs rhs r c = none ↔ lhs.cols = 0)
      ∧ (0 < lhs.cols →
          dynamicCoeffRun lhs rhs r c
            = some (lhs.coeff r 0 * rhs.coeff 0 c
                + ∑ i ∈ Finset.Ico 1 lhs.cols, lhs.coeff r i * rhs.coeff i c)) := by
  constructor
  · rcases Nat.eq_zero_or_pos lhs.cols with h | h
    · simp [dynamicCoeffRun, h]
    · simp [dynamicCoeffRun_pos lhs rhs r c h]
      omega
  · intro h
    obtain ⟨m, hm⟩ : ∃ m, lhs.cols = m + 1 :=
      ⟨lhs.cols - 1, (Nat.succ_pred_eq_of_pos h).symm⟩
    rw [dynamicCoeffRun_pos lhs rhs r c h, hm]
    simp only [Nat.add_sub_cancel]
    rw [unrolledCoeffRun_eq_sum, Finset.range_eq_Ico,
      Finset.sum_eq_sum_Ico_succ_bot (by omega : 0 < m + 1)]

/-- C6 witness: scenario E2, `A = [[1,2,3]]`, `B = [[4],[5],[6]]`; the
positive-inner-size branch yields 32. -/
theorem C6_dynamic_inner_size_zero_assertion_witness :
    dynamicCoeffRun
        (⟨1, 3, fun _ j => if j = 0 then 1 else if j = 1 then 2 else 3⟩ : Mat Int)
        (⟨3, 1, fun i _ => if i = 0 then 4 else if i = 1 then 5 else 6⟩ : Mat Int) 0 0
      = some 32 :=
  ((C6_dynamic_inner_size_zero_assertion
      ⟨1, 3, fun _ j => if j = 0 then 1 else if j = 1 then 2 else 3⟩
      ⟨3, 1, fun i _ => if i = 0 then 4 else if i = 1 then 5 else 6⟩ 0 0).2
    (by decide)).trans (by decide)

/-- C7: for every compile-time inner size `N > 0`, the fully unrolled
scalar coefficient evaluator instantiated at `Index = N-1` computes
bit-for-bit (over an arbitrary scalar type with only `*` and `+`, so the
equality really is about the accumulation order) the value that the
dynamic runtime-loop evaluator produces on the same operands. -/
theorem C7_unrolled_refines_dynamic {α : Type} [Mul α] [Add α]
    (lhs rhs : Mat α) (r c N : Nat) (init : α)
    (hN : 0 < N) (hcols : lhs.cols = N) :
    dynamicCoeffRun lhs rhs r c
      = some (scalarCoeffImplRun ((N : Int) - 1) lhs rhs r c init) := by
  obtain ⟨m, rfl⟩ : ∃ m, N = m + 1 := ⟨N - 1, (Nat.succ_pred_eq_of_pos hN).symm⟩
  have hidx : ((m + 1 : Nat) : Int) - 1 = ((m : Nat) : Int) := by push_cast; ring
  rw [dynamicCoeffRun_pos lhs rhs r c (by omega),
    scalarCoeffImplRun, hidx, if_pos (Int.natCast_nonneg m), Int.toNat_natCast,
    hcols, Nat.add_sub_cancel]

/-- C7 witness: the E2 operands at `N = 3`; both evaluators give 32. -/
theorem C7_unrolled_refines_dynamic_witness :
    dynamicCoeffRun
        ⟨1, 3, fun _ j => if j = 0 then 1 else if j = 1 then 2 else 3⟩
        ⟨3, 1, fun i _ => if i = 0 then 4 else if i = 1 then 5 else 6⟩ 0 0
      = some (scalarCoeffImplRun ((3 : Nat) - 1)
          ⟨1, 3, fun _ j => if j = 0 then 1 else if j = 1 then 2 else 3⟩
          ⟨3, 1, fun i _ => if i = 0 then 4 else if i = 1 then 5 else 6⟩ 0 0 (0 : Int)) :=
  C7_unrolled_refines_dynamic _ _ 0 0 3 0 (by decide) rfl

/-- C9: `Product::rows()` is `lhs.rows()` and `Product::cols()` is
`rhs.cols()`, independently of the product-mode tag. -/
theorem C9_product_shape {α : Type} (lhs rhs : Mat α) (m m' : ProductMode) :
    (Product.mk lhs rhs m).rows = lhs.rows
      ∧ (Product.mk lhs rhs m).cols = rhs.cols
      ∧ (Product.mk lhs rhs m).rows = (Product.mk lhs rhs m').rows
      ∧ (Product.mk lhs rhs m).cols = (Product.mk lhs rhs m').cols :=
  ⟨rfl, rfl, rfl, rfl⟩

/-- C10: with compile-time inner size 0 the unrolled scalar evaluator is
instantiated at `Index = 0 - 1 = -1`, whose `run` is a no-op: `coeff`
returns the uninitialized `res` unchanged (`some init` — no assertion
fires, and the result is whatever garbage `init` holds, not 0). -/
theorem C10_inner_size_zero_noop {α : Type} [Mul α] [Add α]
    (p : Product α) (r c : Nat) (init : α) :
    scalarCoeffImplRun (-1) p.lhs p.rhs r c init = init
      ∧ Product.coeff true 0 init p r c = some init := by
  constructor
  · rw [scalarCoeffImplRun, if_neg (by omega)]
  · rw [Product.coeff]
    simp only [if_true]
    rw [show (0 : Int) - 1 = -1 by ring, scalarCoeffImplRun, if_neg (by omega)]

/-- C2 (code bug exhibit): at the static traits of a 1×Dynamic row vector
`A` (max rows 1, max cols Dynamic, row-major, direct access) times a
Dynamic×Dynamic column-major expression `B` without direct access, the
classifier as the claim states it (clause "A is a vector") selects
Normal, but the code — whose `LhsIsVectorAtCompileTime` enum is written
`Lhs::ColsAtCompileTime==1 || Rhs::ColsAtCompileTime==1` — selects
CacheFriendly; the selector tag tuple of that cache-friendly product then
lands on the intentionally empty
`<1, _, _, RhsCols, ColMajor, NoDirectAccess>` specialization, i.e. the
compile-time error the classifier clause was meant to prevent. -/
theorem C2_product_mode_code_bug :
    ei_product_mode
        ⟨1, Dynamic, 1, Dynamic, true, true, 0⟩
        ⟨Dynamic, Dynamic, Dynamic, Dynamic, false, false, 0⟩
      = ProductMode.CacheFriendlyProduct
    ∧ ei_product_mode_claim
        ⟨1, Dynamic, 1, Dynamic, true, true, 0⟩
        ⟨Dynamic, Dynamic, Dynamic, Dynamic, false, false, 0⟩
      = ProductMode.NormalProduct
    ∧ ei_cache_friendly_product_selector
        ⟨1, StorageOrder.RowMajor, DirectAccess.HasDirectAccess,
          Dynamic, StorageOrder.ColMajor, DirectAccess.NoDirectAccess⟩
      = SelectorResolution.emptySpecialization := by
  decide

/-- C3 counterexample: the tag tuple of a row-major matrix without direct
access times a vector is matched by the intentionally empty
specialization, not by the default general-GEMM path, contradicting the
claim that it is evaluated via `_cacheFriendlyEvalAndAdd`. -/
theorem C3_counterexample :
    ei_cache_friendly_product_selector
        ⟨Dynamic, StorageOrder.RowMajor, DirectAccess.NoDirectAccess,
          1, StorageOrder.ColMajor, DirectAccess.HasDirectAccess⟩
      = SelectorResolution.emptySpecialization
    ∧ ei_cache_friendly_product_selector
        ⟨Dynamic, StorageOrder.RowMajor, DirectAccess.NoDirectAccess,
          1, StorageOrder.ColMajor, DirectAccess.HasDirectAccess⟩
      ≠ SelectorResolution.kernel CFKernel.generalGemm := by
  decide

/-- C3 (amended): the row-major-no-direct × vector and vector ×
column-major-no-direct tag tuples are matched by deliberately empty
specializations (an intentional compile-time error, not a fall-through to
the general GEMM), and the dispatch is unambiguous — hence total, with
the primary template as default — on every tag tuple outside the
unrealizable `LhsRows = 1 ∧ RhsCols = 1` overlap. -/
theorem C3_selector_empty_and_total (t : SelectorTags) :
    (t.lhsOrder = StorageOrder.RowMajor → t.lhsAccess = DirectAccess.NoDirectAccess →
      t.rhsCols = 1 → t.lhsRows ≠ 1 →
      ei_cache_friendly_product_selector t = SelectorResolution.emptySpecialization)
    ∧ (t.lhsRows = 1 → t.rhsOrder = StorageOrder.ColMajor →
      t.rhsAccess = DirectAccess.NoDirectAccess → t.rhsCols ≠ 1 →
      ei_cache_friendly_product_selector t = SelectorResolution.emptySpecialization)
    ∧ (¬(t.lhsRows = 1 ∧ t.rhsCols = 1) →
      ei_cache_friendly_product_selector t ≠ SelectorResolution.ambiguous) := by
  obtain ⟨lr, lo, la, rc, ro, ra⟩ := t
  refine ⟨?_, ?_, ?_⟩
  · intro h1 h2 h3 h4
    subst h1; subst h2; subst h3
    simp [ei_cache_friendly_product_selector, matchRhsColsOne, matchLhsRowsOne, h4]
  · intro h1 h2 h3 h4
    subst h1; subst h2; subst h3
    simp [ei_cache_friendly_product_selector, matchRhsColsOne, matchLhsRowsOne, h4]
  · intro h
    by_cases h1 : lr = 1
    · have h2 : rc ≠ 1 := fun hc => h ⟨h1, hc⟩
      rcases ro <;> rcases ra <;>
        simp [ei_cache_friendly_product_selector, matchRhsColsOne, matchLhsRowsOne, h1, h2]
    · by_cases h2 : rc = 1
      · rcases lo <;> rcases la <;>
          simp [ei_cache_friendly_product_selector, matchRhsColsOne, matchLhsRowsOne, h1, h2]
      · simp [ei_cache_friendly_product_selector, matchRhsColsOne, matchLhsRowsOne, h1, h2]

/-- C3 witness: the vector × column-major-no-direct tuple with a
non-vector right-hand side hits the empty specialization. -/
theorem C3_selector_empty_and_total_witness :
    ei_cache_friendly_product_selector
        ⟨1, StorageOrder.ColMajor, DirectAccess.HasDirectAccess,
          Dynamic, StorageOrder.ColMajor, DirectAccess.NoDirectAccess⟩
      = SelectorResolution.emptySpecialization :=
  (C3_selector_empty_and_total _).2.1 rfl rfl rfl (by decide)

/-- C4 counterexample: with threshold 8 and an 8×8 times 8×8 product,
`_useCacheFriendlyProduct()` returns true although neither the inner size
nor any outer dimension strictly exceeds the threshold (the code compares
with `>=`, the claim with "exceed"). -/
theorem C4_counterexample :
    Product.useCacheFriendlyProduct 8
        (⟨⟨8, 8, fun _ _ => 0⟩, ⟨8, 8, fun _ _ => 0⟩,
          ProductMode.CacheFriendlyProduct⟩ : Product Int)
      = true
    ∧ ¬(8 < (⟨⟨8, 8, fun _ _ => 0⟩, ⟨8, 8, fun _ _ => 0⟩,
          ProductMode.CacheFriendlyProduct⟩ : Product Int).lhs.cols
        ∧ (8 < (⟨⟨8, 8, fun _ _ => 0⟩, ⟨8, 8, fun _ _ => 0⟩,
              ProductMode.CacheFriendlyProduct⟩ : Product Int).rows
          ∨ 8 < (⟨⟨8, 8, fun _ _ => 0⟩, ⟨8, 8, fun _ _ => 0⟩,
              ProductMode.CacheFriendlyProduct⟩ : Product Int).cols)) := by
  decide

/-- C4 (amended): `_useCacheFriendlyProduct()` returns true iff the inner
size (`lhs.cols`) and at least one outer dimension (`rows()` or `cols()`)
reach or exceed the tunable threshold; when it is false, the
CacheFriendly-tagged product is dispatched to the lazy path by both
compound assignments. -/
theorem C4_useCacheFriendly_iff (threshold : Nat) (p : Product Int) :
    (p.useCacheFriendlyProduct threshold = true
      ↔ (threshold ≤ p.lhs.cols ∧ (threshold ≤ p.rows ∨ threshold ≤ p.cols)))
    ∧ (p.useCacheFriendlyProduct threshold = false →
        ∀ (t : SelectorTags) (res : Mat Int),
          operatorPlusEq threshold t res p = lazyPlusAssign res p
          ∧ operatorMinusEq threshold t res p = lazyMinusAssign res p) := by
  constructor
  · simp [Product.useCacheFriendlyProduct]
  · intro h t res
    constructor <;> simp [operatorPlusEq, operatorMinusEq, h]

/-- C4 witness: a 2×2 times 2×2 product is below the default threshold 8,
so `operator+=` takes the lazy branch. -/
theorem C4_useCacheFriendly_iff_witness :
    operatorPlusEq 8
        ⟨2, StorageOrder.ColMajor, DirectAccess.HasDirectAccess,
          2, StorageOrder.ColMajor, DirectAccess.HasDirectAccess⟩
        ⟨2, 2, fun _ _ => 0⟩
        (⟨⟨2, 2, fun _ _ => 0⟩, ⟨2, 2, fun _ _ => 0⟩,
          ProductMode.CacheFriendlyProduct⟩ : Product Int)
      = lazyPlusAssign ⟨2, 2, fun _ _ => 0⟩
        (⟨⟨2, 2, fun _ _ => 0⟩, ⟨2, 2, fun _ _ => 0⟩,
          ProductMode.CacheFriendlyProduct⟩ : Product Int) :=
  ((C4_useCacheFriendly_iff 8 _).2 (by decide) _ _).1

/-- C5: the expression-path colmajor×vector and vector×rowmajor selector
specializations assert `alpha == Scalar(1)` before accumulating: with
`alpha = -1` — exactly what `operator-=` passes when
`_useCacheFriendlyProduct()` holds — they abort on the assertion, and with
`alpha = 1` they correctly accumulate `res += Σ_k rhs(k)·A.col(k)`
(resp. `res += Σ_j lhs(j)·B.row(j)`) into the destination. -/
theorem C5_alpha_one_assertion (p : Product Int) (res : Mat Int) :
    colmajorTimesVectorExprRun p (-1) res = none
    ∧ vectorTimesRowmajorExprRun p (-1) res = none
    ∧ colmajorTimesVectorExprRun p 1 res
        = some { res with coeff := fun i j =>
            (if j = 0 then
              res.coeff i 0
                + ∑ k ∈ Finset.range p.rhs.rows, p.rhs.coeff k 0 * p.lhs.coeff i k
            else res.coeff i j) }
    ∧ vectorTimesRowmajorExprRun p 1 res
        = some { res with coeff := fun i j =>
            (if i = 0 then
              res.coeff 0 j
                + ∑ k ∈ Finset.range p.lhs.cols, p.lhs.coeff 0 k * p.rhs.coeff k j
            else res.coeff i j) }
    ∧ (∀ (threshold : Nat) (t : SelectorTags),
        p.useCacheFriendlyProduct threshold = true →
        (ei_cache_friendly_product_selector t
            = SelectorResolution.kernel CFKernel.colmajorTimesVectorExpr
          ∨ ei_cache_friendly_product_selector t
            = SelectorResolution.kernel CFKernel.vectorTimesRowmajorExpr) →
        operatorMinusEq threshold t res p = none) := by
  have hne : ((-1 : Int) = 1) = False := by norm_num
  refine ⟨?_, ?_, ?_, ?_, ?_⟩
  · rw [colmajorTimesVectorExprRun, if_neg (by norm_num)]
  · rw [vectorTimesRowmajorExprRun, if_neg (by norm_num)]
  · rw [colmajorTimesVectorExprRun, if_pos rfl,
      foldl_colUpdate (fun k i => p.rhs.coeff k 0 * p.lhs.coeff i k) res p.rhs.rows]
  · rw [vectorTimesRowmajorExprRun, if_pos rfl,
      foldl_rowUpdate (fun k j => p.lhs.coeff 0 k * p.rhs.coeff k j) res p.lhs.cols]
  · intro threshold t hcf hsel
    rw [operatorMinusEq, if_pos hcf]
    rcases hsel with h | h <;>
      simp [selectorRun, h, colmajorTimesVectorExprRun, vectorTimesRowmajorExprRun]

/-- C5 witness: a 3×3 times 3×1 cache-friendly product routed through the
colmajor×vector expression path by `operator-=` aborts (alpha = -1). -/
theorem C5_alpha_one_assertion_witness :
    operatorMinusEq 0
        ⟨Dynamic, StorageOrder.ColMajor, DirectAccess.NoDirectAccess,
          1, StorageOrder.ColMajor, DirectAccess.HasDirectAccess⟩
        ⟨3, 1, fun _ _ => 0⟩
        (⟨⟨3, 3, fun _ _ => 1⟩, ⟨3, 1, fun _ _ => 1⟩,
          ProductMode.CacheFriendlyProduct⟩ : Product Int)
      = none :=
  (C5_alpha_one_assertion _ _).2.2.2.2 0 _ (by decide) (Or.inl (by decide))

/-- C8: `C += A*B` — through either dispatch branch of `operator+=` and
any realizable kernel of the cache-friendly selector — adds exactly the
matrix product to every in-range destination entry, i.e. it yields the
same contents as computing `C + A*B` into a fresh matrix. -/
theorem C8_plusEq_is_add_product (threshold : Nat) (t : SelectorTags)
    (res : Mat Int) (p : Product Int)
    (hconf : p.lhs.cols = p.rhs.rows) (hk : 0 < p.lhs.cols)
    (hempty : ei_cache_friendly_product_selector t
      ≠ SelectorResolution.emptySpecialization)
    (hamb : ei_cache_friendly_product_selector t ≠ SelectorResolution.ambiguous)
    (hcolvec : (ei_cache_friendly_product_selector t
          = SelectorResolution.kernel CFKernel.colmajorTimesVectorExpr
        ∨ ei_cache_friendly_product_selector t
          = SelectorResolution.kernel CFKernel.colmajorTimesVectorDirect
        ∨ ei_cache_friendly_product_selector t
          = SelectorResolution.kernel CFKernel.rowmajorTimesVector)
        → res.cols = 1)
    (hrowvec : (ei_cache_friendly_product_selector t
          = SelectorResolution.kernel CFKernel.vectorTimesRowmajorExpr
        ∨ ei_cache_friendly_product_selector t
          = SelectorResolution.kernel CFKernel.vectorTimesRowmajorDirect
        ∨ ei_cache_friendly_product_selector t
          = SelectorResolution.kernel CFKernel.vectorTimesColmajor)
        → res.rows = 1) :
    (operatorPlusEq threshold t res p).isSome = true
    ∧ ∀ i j, i < res.rows → j < res.cols →
        Option.map (fun M => M.coeff i j) (operatorPlusEq threshold t res p)
          = some (res.coeff i j
              + ∑ k ∈ Finset.range p.lhs.cols, p.lhs.coeff i k * p.rhs.coeff k j) := by
  suffices h : ∃ M, operatorPlusEq threshold t res p = some M
      ∧ ∀ i j, i < res.rows → j < res.cols →
        M.coeff i j = res.coeff i j
          + ∑ k ∈ Finset.range p.lhs.cols, p.lhs.coeff i k * p.rhs.coeff k j by
    obtain ⟨M, hM, hco⟩ := h
    refine ⟨by rw [hM]; rfl, ?_⟩
    intro i j hi hj
    rw [hM, Option.map_some', hco i j hi hj]
  rw [operatorPlusEq]
  cases hcf : p.useCacheFriendlyProduct threshold with
  | false =>
      simp only [Bool.false_eq_true, if_false]
      rw [lazyPlusAssign]
      by_cases hz : res.rows = 0 ∨ res.cols = 0
      · rw [if_pos hz]
        exact ⟨res, rfl, fun i j hi hj => by rcases hz with hz | hz <;> omega⟩
      · rw [if_neg hz, if_pos hk]
        exact ⟨_, rfl, fun i j hi hj => by
          simp [lazyCoeffValue_eq_sum p i j hk]⟩
  | true =>
      simp only [if_true]
      cases hres : ei_cache_friendly_product_selector t with
      | emptySpecialization => exact absurd hres hempty
      | ambiguous => exact absurd hres hamb
      | kernel k =>
          cases k with
          | generalGemm =>
              simp only [selectorRun, hres]
              refine ⟨_, rfl, fun i j hi hj => ?_⟩
              simp [cacheFriendlyEvalAndAdd, ei_general_matrix_matrix_product, one_mul]
          | colmajorTimesVectorExpr =>
              have hc1 : res.cols = 1 := hcolvec (Or.inl hres)
              refine ⟨_, by
                simp only [selectorRun, hres]
                rw [colmajorTimesVectorExprRun, if_pos rfl,
                  foldl_colUpdate (fun k i => p.rhs.coeff k 0 * p.lhs.coeff i k)
                    res p.rhs.rows], fun i j hi hj => ?_⟩
              have hj0 : j = 0 := by omega
              subst hj0
              simp only [if_pos rfl]
              rw [hconf]
              exact congrArg (res.coeff i 0 + ·)
                (Finset.sum_congr rfl fun k _ => mul_comm _ _).symm
          | colmajorTimesVectorDirect =>
              have hc1 : res.cols = 1 := hcolvec (Or.inr (Or.inl hres))
              simp only [selectorRun, hres]
              refine ⟨_, rfl, fun i j hi hj => ?_⟩
              have hj0 : j = 0 := by omega
              subst hj0
              simp [matTimesVectorDirectRun, one_mul]
          | rowmajorTimesVector =>
              have hc1 : res.cols = 1 := hcolvec (Or.inr (Or.inr hres))
              simp only [selectorRun, hres]
              refine ⟨_, rfl, fun i j hi hj => ?_⟩
              have hj0 : j = 0 := by omega
              subst hj0
              simp [matTimesVectorDirectRun, one_mul]
          | vectorTimesRowmajorExpr =>
              have hr1 : res.rows = 1 := hrowvec (Or.inl hres)
              refine ⟨_, by
                simp only [selectorRun, hres]
                rw [vectorTimesRowmajorExprRun, if_pos rfl,
                  foldl_rowUpdate (fun k j => p.lhs.coeff 0 k * p.rhs.coeff k j)
                    res p.lhs.cols], fun i j hi hj => ?_⟩
              have hi0 : i = 0 := by omega
              subst hi0
              simp
          | vectorTimesRowmajorDirect =>
              have hr1 : res.rows = 1 := hrowvec (Or.inr (Or.inl hres))
              simp only [selectorRun, hres]
              refine ⟨_, rfl, fun i j hi hj => ?_⟩
              have hi0 : i = 0 := by omega
              subst hi0
              simp [vectorTimesMatDirectRun, one_mul]
          | vectorTimesColmajor =>
              have hr1 : res.rows = 1 := hrowvec (Or.inr (Or.inr hres))
              simp only [selectorRun, hres]
              refine ⟨_, rfl, fun i j hi hj => ?_⟩
              have hi0 : i = 0 := by omega
              subst hi0
              simp [vectorTimesMatDirectRun, one_mul]

/-- C8 witness: scenario E1 through the general GEMM branch — `C += A*B`
with `C = 0`, `A = [[1,2],[3,4]]`, `B = [[5,6],[7,8]]` leaves `A*B` in
every entry of `C`. -/
theorem C8_plusEq_is_add_product_witness :
    (operatorPlusEq 1
        ⟨2, StorageOrder.ColMajor, DirectAccess.HasDirectAccess,
          2, StorageOrder.ColMajor, DirectAccess.HasDirectAccess⟩
        ⟨2, 2, fun _ _ => 0⟩
        (⟨⟨2, 2, fun i j => if i = 0 then (if j = 0 then 1 else 2)
                            else (if j = 0 then 3 else 4)⟩,
          ⟨2, 2, fun i j => if i = 0 then (if j = 0 then 5 else 6)
                            else (if j = 0 then 7 else 8)⟩,
          ProductMode.CacheFriendlyProduct⟩ : Product Int)).isSome = true :=
  (C8_plusEq_is_add_product 1 _ _ _ rfl (by decide) (by decide) (by decide)
    (by decide) (by decide)).1

end Eigen
